import Mathlib

/-!
Verification of the unocss-language-server workspace context resolver
(src/context.ts, class ContextManager) and the per-document match cache
(src/cache.ts), as a shallow embedding.

Modelling conventions:
* File-system paths are absolute and represented as lists of path
  components (`FsPath`); `path.dirname` is `List.dropLast`, the
  file-system root `path.parse(dir).root` is `[]`, and JavaScript
  string-length comparisons between nested directory paths correspond
  to component-count comparisons (on a chain of ancestors both orders
  agree, and the source only ever compares directories that are
  ancestors of one and the same file).
* JavaScript `Map`s are association lists in insertion order
  (`mapGet` / `mapSet` / `mapDelete` / `mapHas`).
* The external collaborators are oracles: `readdir` is a function
  `FsPath → Option (List String)` (`none` models a thrown listing error),
  and `loadConfig` of `@unocss/config` is a function
  `FsPath → LoadResult`.  Both are pure, matching spec section 6.
* The configuration object itself is opaque (`ConfigObj := Nat`), and the
  generator / autocomplete engines are records storing exactly the
  arguments of `createGenerator` / `createAutocomplete` calls.
-/

/-- A path component list; absolute, root is `[]`. -/
abbrev FsPath := List String

/-- Opaque configuration object produced by the config loader. -/
abbrev ConfigObj := Nat

/-- Result of `loadConfig(dir, dir, …)`: possibly-absent config plus the
list of source files it was built from. -/
structure LoadResult where
  config : Option ConfigObj
  sources : List FsPath
deriving DecidableEq, Repr

/-- Opaque style generator: `createGenerator({}, defaultConfig)` followed by
`setConfig(result?.config || {}, defaultConfig)`; we record the user config
it was configured with. -/
structure UnoGenerator where
  userConfig : Option ConfigObj
deriving DecidableEq, Repr

/-- Opaque autocomplete engine: records the `createAutocomplete(generator,
{ matchType, throwErrors })` arguments. -/
structure UnocssAutocomplete where
  generator : UnoGenerator
  matchType : String
  throwErrors : Bool
deriving DecidableEq, Repr

/-- The `UnoContext` interface of src/context.ts. -/
structure UnoContext where
  configDir : FsPath
  generator : UnoGenerator
  autocomplete : UnocssAutocomplete
  configSources : List FsPath
deriving DecidableEq, Repr

/-- Association-list lookup, modelling JavaScript `Map.get`. -/
def mapGet {κ ν : Type} [DecidableEq κ] : List (κ × ν) → κ → Option ν
  | [], _ => none
  | (k', v') :: rest, k => if k' = k then some v' else mapGet rest k

/-- Association-list update, modelling JavaScript `Map.set` (replaces in
place, inserts at the end). -/
def mapSet {κ ν : Type} [DecidableEq κ] : List (κ × ν) → κ → ν → List (κ × ν)
  | [], k, v => [(k, v)]
  | (k', v') :: rest, k, v =>
    if k' = k then (k, v) :: rest else (k', v') :: mapSet rest k v

/-- Association-list removal, modelling JavaScript `Map.delete` (a `Map`
holds at most one entry per key; we remove the first). -/
def mapDelete {κ ν : Type} [DecidableEq κ] : List (κ × ν) → κ → List (κ × ν)
  | [], _ => []
  | (k', v') :: rest, k => if k' = k then rest else (k', v') :: mapDelete rest k

/-- Membership test, modelling JavaScript `Map.has`. -/
def mapHas {κ ν : Type} [DecidableEq κ] (m : List (κ × ν)) (k : κ) : Bool :=
  (mapGet m k).isSome

/-- Keys of the association list are pairwise distinct; every map built by
`mapSet` from `[]` satisfies this (it is the `Map` representation
invariant). -/
def nodupKeys {κ ν : Type} (m : List (κ × ν)) : Prop :=
  (m.map Prod.fst).Nodup

instance {κ ν : Type} [DecidableEq κ] (m : List (κ × ν)) : Decidable (nodupKeys m) :=
  inferInstanceAs (Decidable (List.Nodup _))

/-- Word characters for the purposes of the regex word-boundary `\b`. -/
def isWordChar (c : Char) : Bool :=
  c.isAlphanum || c = '_'

/-- Match of `uno.config.` or `unocss.config.` at the head of a character
list. -/
def unoConfigAt (l : List Char) : Bool :=
  List.isPrefixOf (String.toList ("uno.config.")) l ||
  List.isPrefixOf (String.toList ("unocss.config.")) l

/-- Scanner for `unoConfigRE = /\buno(?:css)?\.config\./`: looks for the
pattern at any position preceded by a word boundary. -/
def unoConfigScan : Bool → List Char → Bool
  | b, [] => b && unoConfigAt []
  | b, c :: rest => (b && unoConfigAt (c :: rest)) || unoConfigScan (!isWordChar c) rest

/-- Test of `unoConfigRE` against a file name. -/
def unoConfigTest (s : String) : Bool :=
  unoConfigScan true s.toList

/-- Test of `frameworkConfigRE =
/^(?:vite|svelte|astro|iles|nuxt|unocss|uno)\.config/` against a file
name. -/
def frameworkConfigTest (s : String) : Bool :=
  [("vite"), ("svelte"), ("astro"), ("iles"), ("nuxt"), ("unocss"), ("uno")].any
    fun p => List.isPrefixOf (String.toList (p ++ (".config"))) s.toList

/-- Test of `excludeFileRE = /[\\/](?:node_modules|dist|\.temp|\.cache)[\\/]/`
against an absolute path: some component other than the last one (every
component except the final file name is enclosed in separators) is one of
the excluded directory names. -/
def excludeFileTest (file : FsPath) : Bool :=
  file.dropLast.any fun c =>
    c == ("node_modules") || c == ("dist") || c == (".temp") || c == (".cache")

/-- Modelled from the spec: `isSubdir(parent, child)` from src/utils.ts
(not present under src/); per spec section 4.1, true when the child path
is strictly nested under the parent directory. -/
def isSubdir (parent child : FsPath) : Bool :=
  List.isPrefixOf parent child && decide (parent.length < child.length)

/-- Model of `path.dirname` on absolute component paths. -/
def dirname (p : FsPath) : FsPath :=
  p.dropLast

/-- Model of `createGenerator({}, defaultConfig)` +
`setConfig(result?.config || {}, defaultConfig)`. -/
def createGenerator (cfg : Option ConfigObj) : UnoGenerator :=
  { userConfig := cfg }

/-- Model of `createAutocomplete(generator, { matchType, throwErrors: false })`. -/
def createAutocomplete (g : UnoGenerator) (matchType : String) : UnocssAutocomplete :=
  { generator := g, matchType := matchType, throwErrors := false }

/-- The mutable state of a `ContextManager` instance. -/
structure CMState where
  cwd : FsPath
  contextsMap : List (FsPath × Option UnoContext)
  fileContextCache : List (FsPath × Option UnoContext)
  configExistsCache : List (FsPath × Option FsPath)
  loadingContexts : List FsPath
  autocompleteMatchType : String
  configSources : List FsPath
deriving DecidableEq, Repr

/-- Model of `Array.from(new Set([...old, ...new]))`: append keeping first
occurrences. -/
def dedupUnion (old new : List FsPath) : List FsPath :=
  (old ++ new).foldl (fun acc x => if x ∈ acc then acc else acc ++ [x]) []

/-- The body of `ContextManager.loadContext(dir, allowDefault)` in
src/context.ts: invoke the config loader, either record a definitive
`null` (absent marker) or build generator, autocomplete and context and
register them.  Returns (result, new state, directories the loader was
invoked for). -/
def loadContext (loader : FsPath → LoadResult) (st : CMState) (dir : FsPath)
    (allowDefault : Bool) : Option UnoContext × CMState × List FsPath :=
  let result := loader dir
  if result.config.isNone && !allowDefault then
    (none, { st with contextsMap := mapSet st.contextsMap dir none }, [dir])
  else
    let generator := createGenerator result.config
    let autocomplete := createAutocomplete generator st.autocompleteMatchType
    let context : UnoContext :=
      { configDir := dir, generator := generator, autocomplete := autocomplete,
        configSources := result.sources }
    let st' := { st with
      contextsMap := mapSet st.contextsMap dir (some context),
      configSources :=
        if result.sources ≠ [] then dedupUnion st.configSources result.sources
        else st.configSources }
    (some context, st', [dir])

/-- Sequential (atomic) model of
`ContextManager.loadContextInDirectory(dir, allowDefault)`: return the
cached context or absent marker if present, otherwise perform the load.
Between atomic operations the in-flight table is empty, so the
request-coalescing branch of the source is vacuous here; it is modelled
faithfully in the interleaved layer below (`acall`). -/
def loadContextInDirectory (loader : FsPath → LoadResult) (st : CMState)
    (dir : FsPath) (allowDefault : Bool) : Option UnoContext × CMState × List FsPath :=
  match mapGet st.contextsMap dir with
  | some cached => (cached, st, [])
  | none => loadContext loader st dir allowDefault

/-- Model of `ContextManager.reload()`: clear all four memoization tables
at once, then eagerly load the workspace-root context with
allow-default semantics. -/
def reload (loader : FsPath → LoadResult) (st : CMState) : CMState × List FsPath :=
  let st0 := { st with
    fileContextCache := [], configExistsCache := [],
    loadingContexts := [], contextsMap := [], configSources := [] }
  let r := loadContextInDirectory loader st0 st0.cwd true
  (r.2.1, r.2.2)

/-- Model of `ContextManager.setAutocompleteMatchType(matchType)`. -/
def setAutocompleteMatchType (st : CMState) (matchType : String) : CMState :=
  if st.autocompleteMatchType = matchType then st
  else
    { st with
      autocompleteMatchType := matchType,
      contextsMap := st.contextsMap.map fun pr =>
        (pr.1, pr.2.map fun context =>
          { context with
            autocomplete := createAutocomplete context.generator matchType }) }

/-- Comparator of the `Array.from(this.contextsMap.entries()).sort((a, b)
=> b[0].length - a[0].length)` call: descending key length. -/
def byLenDesc (a b : FsPath × Option UnoContext) : Prop :=
  b.1.length ≤ a.1.length

instance : DecidableRel byLenDesc := fun a b =>
  inferInstanceAs (Decidable (b.1.length ≤ a.1.length))

instance : IsTotal (FsPath × Option UnoContext) byLenDesc :=
  ⟨fun a b => (Nat.le_total b.1.length a.1.length).imp id id⟩

instance : IsTrans (FsPath × Option UnoContext) byLenDesc :=
  ⟨fun _ _ _ hab hbc => Nat.le_trans hbc hab⟩

/-- The scan over already-loaded contexts in
`resolveClosestContext`: sort entries by descending configDir length and
take the first non-null entry whose configDir is the file or an ancestor
of it. -/
def scanLoaded (st : CMState) (file : FsPath) : Option UnoContext :=
  ((List.insertionSort byLenDesc st.contextsMap).find? fun e =>
    e.2.isSome && (file == e.1 || isSubdir e.1 file)).bind Prod.snd

/-- The `hasConfigFiles(dir)` probe: `readdir` the directory (a listing
failure counts as no configuration) and test each name against the two
config-file regexes. -/
def hasConfigFiles (fs : FsPath → Option (List String)) (dir : FsPath) : Bool :=
  match fs dir with
  | none => false
  | some files => files.any fun f => unoConfigTest f || frameworkConfigTest f

/-- The `cacheSearchPath(searchedDirs, result)` helper: memoize one probe
outcome for every directory visited on the walk. -/
def cacheSearchPath (cache : List (FsPath × Option FsPath)) (dirs : List FsPath)
    (result : Option FsPath) : List (FsPath × Option FsPath) :=
  dirs.foldl (fun c d => mapSet c d result) cache

/-- The chain of directories the upward walk visits from `p`: `p`,
`dirname p`, `dirname (dirname p)`, …, `[]`; this is `p.inits` from the
longest prefix down. -/
def dirnameChain (p : FsPath) : List FsPath :=
  p.inits.reverse

/-- The `while` loop of `findConfigDirectory`, driven by the explicit
dirname chain of the starting directory (the loop body updates
`dir = path.dirname(dir)`, so the successive values of `dir` are exactly
that chain; recursing over it keeps the function structurally
recursive).  Walk upward, bounded by the workspace root, probing each
directory (through the memoized probe cache) for configuration files.
Returns (found directory or none, updated probe cache, directories
actually listed). -/
def findConfigLoop (fs : FsPath → Option (List String)) (cwd : FsPath)
    (cache : List (FsPath × Option FsPath)) :
    List FsPath → List FsPath → List FsPath →
      Option FsPath × List (FsPath × Option FsPath) × List FsPath
  | [], searched, probed => (none, cacheSearchPath cache searched none, probed)
  | dir :: downchain, searched, probed =>
    if dir ≠ [] ∧ (dir = cwd ∨ isSubdir cwd dir = true) then
      let searched' := searched ++ [dir]
      match mapGet cache dir with
      | some found => (found, cacheSearchPath cache searched' found, probed)
      | none =>
        let probed' := probed ++ [dir]
        if hasConfigFiles fs dir then
          (some dir, cacheSearchPath cache searched' (some dir), probed')
        else
          findConfigLoop fs cwd cache downchain searched' probed'
    else
      (none, cacheSearchPath cache searched none, probed)

/-- Model of `ContextManager.findConfigDirectory(startDir)`. -/
def findConfigDirectory (fs : FsPath → Option (List String)) (st : CMState)
    (startDir : FsPath) : Option FsPath × CMState × List FsPath :=
  match mapGet st.configExistsCache startDir with
  | some cached => (cached, st, [])
  | none =>
    let r := findConfigLoop fs st.cwd st.configExistsCache (dirnameChain startDir) [] []
    (r.1, { st with configExistsCache := r.2.1 }, r.2.2)

/-- Outcome of one `resolveClosestContext` call: the resolved context (or
none), the updated manager state, the directories listed by the probe and
the directories the config loader was invoked for. -/
structure ResolveOut where
  result : Option UnoContext
  state : CMState
  probed : List FsPath
  loaderCalls : List FsPath
deriving DecidableEq, Repr

/-- Model of `ContextManager.resolveClosestContext(code, file)` in
src/context.ts. -/
def resolveClosestContext (fs : FsPath → Option (List String))
    (loader : FsPath → LoadResult) (st : CMState) (code : String)
    (file : FsPath) : ResolveOut :=
  if excludeFileTest file then
    { result := none, state := st, probed := [], loaderCalls := [] }
  else
    match mapGet st.fileContextCache file with
    | some cached => { result := cached, state := st, probed := [], loaderCalls := [] }
    | none =>
      let resolvedContext := scanLoaded st file
      let fd := findConfigDirectory fs st (dirname file)
      let st1 := fd.2.1
      let probed := fd.2.2
      match fd.1 with
      | some discoveredConfigDir =>
        if resolvedContext.all fun rc =>
            rc.configDir.length < discoveredConfigDir.length then
          let r := loadContextInDirectory loader st1 discoveredConfigDir false
          let discoveredContext := r.1
          { result := discoveredContext,
            state := { r.2.1 with
              fileContextCache := mapSet r.2.1.fileContextCache file discoveredContext },
            probed := probed, loaderCalls := r.2.2 }
        else
          match resolvedContext with
          | some rc =>
            { result := some rc,
              state := { st1 with
                fileContextCache := mapSet st1.fileContextCache file (some rc) },
              probed := probed, loaderCalls := [] }
          | none =>
            let r := loadContextInDirectory loader st1 st.cwd true
            { result := r.1,
              state := { r.2.1 with
                fileContextCache := mapSet r.2.1.fileContextCache file r.1 },
              probed := probed, loaderCalls := r.2.2 }
      | none =>
        match resolvedContext with
        | some rc =>
          { result := some rc,
            state := { st1 with
              fileContextCache := mapSet st1.fileContextCache file (some rc) },
            probed := probed, loaderCalls := [] }
        | none =>
          let r := loadContextInDirectory loader st1 st.cwd true
          { result := r.1,
            state := { r.2.1 with
              fileContextCache := mapSet r.2.1.fileContextCache file r.1 },
            probed := probed, loaderCalls := r.2.2 }

/-- One task of the in-flight load table: a `loadContext(dir, allowDefault)`
invocation whose config-loader promise has not settled yet. -/
structure PendingLoad where
  dir : FsPath
  allowDefault : Bool
deriving DecidableEq, Repr

/-- State of the interleaved (event-level) model: the manager state, the
set of started-but-unfinished load bodies, and the log of config-loader
invocations. -/
structure AsyncState where
  st : CMState
  pending : List PendingLoad
  loaderCalls : List FsPath
deriving DecidableEq, Repr

/-- Events of the interleaved model.  `call` is the synchronous prefix of
`loadContextInDirectory` (runs up to the first `await` of `loadContext`,
so the config loader is invoked here); `complete` is the synchronous tail
of `loadContext` after its awaits settle, plus the `finally` cleanup of
`loadContextInDirectory`; `reloadStep` is the synchronous body of
`reload()` followed by the synchronous prefix of its root load. -/
inductive AEvent where
  | call (dir : FsPath) (allowDefault : Bool)
  | complete (dir : FsPath)
  | reloadStep
deriving DecidableEq, Repr

/-- Synchronous prefix of `loadContextInDirectory(dir, allowDefault)`:
return the cached outcome if present; attach to an in-flight load if one
exists; otherwise register the load in the in-flight table and start it
(invoking the config loader). -/
def acall (dir : FsPath) (allowDefault : Bool) (s : AsyncState) : AsyncState :=
  match mapGet s.st.contextsMap dir with
  | some _ => s
  | none =>
    if dir ∈ s.st.loadingContexts then s
    else
      { st := { s.st with loadingContexts := s.st.loadingContexts ++ [dir] },
        pending := s.pending ++ [{ dir := dir, allowDefault := allowDefault }],
        loaderCalls := s.loaderCalls ++ [dir] }

/-- One step of the interleaved model. -/
def astep (loader : FsPath → LoadResult) (e : AEvent) (s : AsyncState) : AsyncState :=
  match e with
  | .call dir allowDefault => acall dir allowDefault s
  | .complete dir =>
    match s.pending.find? fun p => p.dir == dir with
    | none => s
    | some p =>
      let r := loadContext loader s.st p.dir p.allowDefault
      { st := { r.2.1 with loadingContexts := r.2.1.loadingContexts.erase dir },
        pending := s.pending.filter fun q => !(q.dir == dir),
        loaderCalls := s.loaderCalls }
  | .reloadStep =>
    let cleared := { s.st with
      fileContextCache := [], configExistsCache := [],
      loadingContexts := [], contextsMap := [], configSources := [] }
    acall s.st.cwd true { s with st := cleared }

/-- Run of a sequence of events in the interleaved model. -/
def arun (loader : FsPath → LoadResult) (es : List AEvent) (s : AsyncState) : AsyncState :=
  es.foldl (fun s e => astep loader e s) s

/-- A sequence of matched token positions: (start offset, end offset,
matched text). -/
abbrev MatchedPositions := List (Nat × Nat × String)

/-- Modelled from the spec: the Token Matcher
(`getMatchedPositionsFromCode` of src/share-common.ts, not present under
src/) is an opaque scan of document text; its `options` argument is
determined in src/cache.ts solely by the strict flag (strict selects the
`defaultIdeMatchInclude` / `defaultIdeMatchExclude` pattern sets,
non-strict passes no options), so it is modelled as an oracle taking the
generator, the content, the id and that flag. -/
def TokenMatcher : Type :=
  UnoGenerator → String → String → Bool → MatchedPositions

/-- Model of `getCacheKey(id, strictAnnotationMatch)` in src/cache.ts. -/
def getCacheKey (id : String) (strictAnnotationMatch : Bool) : String :=
  (if strictAnnotationMatch then ("strict") else ("default")) ++ (":") ++ id

/-- The match cache of src/cache.ts, keyed by the string cache key. -/
abbrev MatchCache := List (String × MatchedPositions)

/-- Model of `clearDocumentCache(id)`: evict both strictness variants. -/
def clearDocumentCache (cache : MatchCache) (id : String) : MatchCache :=
  mapDelete (mapDelete cache (getCacheKey id false)) (getCacheKey id true)

/-- Model of `clearAllCache()`. -/
def clearAllCache (_cache : MatchCache) : MatchCache :=
  []

/-- Outcome of one `getMatchedPositionsFromDoc` call: the positions, the
updated cache, and whether the Token Matcher was invoked. -/
structure DocCacheOut where
  result : MatchedPositions
  cache : MatchCache
  invokedMatcher : Bool
deriving DecidableEq, Repr

/-- Model of `getMatchedPositionsFromDoc(uno, code, id,
strictAnnotationMatch, force)` in src/cache.ts. -/
def getMatchedPositionsFromDoc (matcher : TokenMatcher) (uno : UnoGenerator)
    (cache : MatchCache) (code id : String)
    (strictAnnotationMatch force : Bool) : DocCacheOut :=
  let cacheKey := getCacheKey id strictAnnotationMatch
  let cache1 := if force then mapDelete cache cacheKey else cache
  match mapGet cache1 cacheKey with
  | some v => { result := v, cache := cache1, invokedMatcher := false }
  | none =>
    let result := matcher uno code id strictAnnotationMatch
    { result := result, cache := mapSet cache1 cacheKey result,
      invokedMatcher := true }

/-- Hypothesis checker: every non-null entry of the context store has its
`configDir` equal to its key (holds in every reachable state, since
`loadContext` registers contexts under their own directory). -/
def ctxKeysConsistent (m : List (FsPath × Option UnoContext)) : Bool :=
  m.all fun pr =>
    match pr.2 with
    | none => true
    | some context => context.configDir == pr.1

/-- Hypothesis checker: no loaded context in the store governs `file` from
a directory deeper than `d`. -/
def noDeeperLoaded (m : List (FsPath × Option UnoContext)) (file d : FsPath) : Bool :=
  m.all fun pr =>
    match pr.2 with
    | none => true
    | some _ => !(file == pr.1 || isSubdir pr.1 file) || decide (pr.1.length ≤ d.length)

/-- Hypothesis checker: no strict descendant of `d` on the way up from the
starting directory `start` has configuration files, i.e. `d` is the
nearest configuration-bearing ancestor. -/
def noConfigBelow (fs : FsPath → Option (List String)) (d start : FsPath) : Bool :=
  start.inits.all fun e =>
    !(List.isPrefixOf d e) || e == d || !hasConfigFiles fs e

/-- Concrete workspace-root context fixture used by witnesses. -/
def sampleRootContext : UnoContext :=
  { configDir := [("ws")], generator := createGenerator none,
    autocomplete := createAutocomplete (createGenerator none) ("prefix"),
    configSources := [] }

/-- Concrete manager state fixture: workspace root `/ws` with its root
context loaded (the state `reload()` establishes). -/
def sampleState : CMState :=
  { cwd := [("ws")], contextsMap := [([("ws")], some sampleRootContext)],
    fileContextCache := [], configExistsCache := [], loadingContexts := [],
    autocompleteMatchType := ("prefix"), configSources := [] }

/-- Concrete readdir oracle fixture: every directory lists empty. -/
def emptyFs : FsPath → Option (List String) :=
  fun _ => some []

/-- Concrete config-loader oracle fixture: finds configuration nowhere. -/
def absentLoader : FsPath → LoadResult :=
  fun _ => { config := none, sources := [] }


/-- Concrete config-loader oracle fixture: finds configuration exactly in
the nested package directory `/ws/pkg`. -/
def pkgLoader : FsPath → LoadResult :=
  fun dir =>
    if dir = [("ws"), ("pkg")] then
      { config := some 5, sources := [[("ws"), ("pkg"), ("uno.config.ts")]] }
    else { config := none, sources := [] }

/-- Concrete interleaved-model state fixture: the sample manager state
with one load for `/ws/pkg` begun but not yet completed. -/
def samplePendingState : AsyncState :=
  { st := sampleState,
    pending := [{ dir := [("ws"), ("pkg")], allowDefault := false }],
    loaderCalls := [[("ws"), ("pkg")]] }


/-- Concrete readdir oracle fixture: `/ws/app` holds a `vite.config.ts`
(so the upward probe reports configuration there), every other directory
lists empty. -/
def viteFs : FsPath → Option (List String) :=
  fun dir =>
    if dir = [("ws"), ("app")] then some [("vite.config.ts")] else some []


/-- Concrete readdir oracle fixture: `/ws/pkg` holds a `uno.config.ts`,
every other directory (including the root and `/ws/pkg/src`) lists
empty. -/
def nestedFs : FsPath → Option (List String) :=
  fun dir =>
    if dir = [("ws"), ("pkg")] then some [("uno.config.ts")] else some []


theorem mapGet_set_self {κ ν : Type} [DecidableEq κ] (m : List (κ × ν)) (k : κ) (v : ν) :
    mapGet (mapSet m k v) k = some v := by
  induction m with
  | nil => simp [mapSet, mapGet]
  | cons hd tl ih =>
    obtain ⟨k', v'⟩ := hd
    by_cases h : k' = k
    · subst h
      simp [mapSet, mapGet]
    · simp [mapSet, mapGet, h, ih]

theorem mapGet_set_ne {κ ν : Type} [DecidableEq κ] (m : List (κ × ν)) (k k' : κ) (v : ν)
    (h : k' ≠ k) : mapGet (mapSet m k' v) k = mapGet m k := by
  induction m with
  | nil => simp [mapSet, mapGet, h]
  | cons hd tl ih =>
    obtain ⟨k'', v''⟩ := hd
    by_cases h2 : k'' = k'
    · subst h2
      simp [mapSet, mapGet, h]
    · simp [mapSet, mapGet, h2, ih]

theorem mapGet_eq_none_iff {κ ν : Type} [DecidableEq κ] (m : List (κ × ν)) (k : κ) :
    mapGet m k = none ↔ k ∉ m.map Prod.fst := by
  induction m with
  | nil => simp [mapGet]
  | cons hd tl ih =>
    obtain ⟨k', v'⟩ := hd
    by_cases h : k' = k
    · subst h
      simp [mapGet]
    · simp [mapGet, h, ih, Ne.symm h]

theorem mapGet_eq_some_mem {κ ν : Type} [DecidableEq κ] {m : List (κ × ν)} {k : κ} {v : ν}
    (h : mapGet m k = some v) : (k, v) ∈ m := by
  induction m with
  | nil => simp [mapGet] at h
  | cons hd tl ih =>
    obtain ⟨k', v'⟩ := hd
    by_cases h2 : k' = k
    · subst h2
      simp [mapGet] at h
      simp [h]
    · simp [mapGet, h2] at h
      exact List.mem_cons_of_mem _ (ih h)

theorem mapGet_delete_ne {κ ν : Type} [DecidableEq κ] (m : List (κ × ν)) (k k' : κ)
    (h : k' ≠ k) : mapGet (mapDelete m k') k = mapGet m k := by
  induction m with
  | nil => simp [mapDelete]
  | cons hd tl ih =>
    obtain ⟨k'', v''⟩ := hd
    by_cases h2 : k'' = k'
    · subst h2
      simp [mapDelete, mapGet, h]
    · simp [mapDelete, mapGet, h2, ih]

theorem keys_delete_sublist {κ ν : Type} [DecidableEq κ] (m : List (κ × ν)) (k : κ) :
    ((mapDelete m k).map Prod.fst).Sublist (m.map Prod.fst) := by
  induction m with
  | nil => simp [mapDelete]
  | cons hd tl ih =>
    obtain ⟨k', v'⟩ := hd
    by_cases h : k' = k
    · simp only [mapDelete, h, if_pos rfl]
      exact (List.sublist_cons_self _ _).trans (List.Sublist.refl _)
    · simp only [mapDelete, h, if_neg h, List.map_cons]
      exact ih.cons₂ _

theorem nodupKeys_delete {κ ν : Type} [DecidableEq κ] {m : List (κ × ν)} (k : κ)
    (h : nodupKeys m) : nodupKeys (mapDelete m k) :=
  (keys_delete_sublist m k).nodup h

theorem mapGet_delete_self {κ ν : Type} [DecidableEq κ] {m : List (κ × ν)} (k : κ)
    (hnd : nodupKeys m) : mapGet (mapDelete m k) k = none := by
  induction m with
  | nil => simp [mapDelete, mapGet]
  | cons hd tl ih =>
    obtain ⟨k', v'⟩ := hd
    simp only [nodupKeys, List.map_cons, List.nodup_cons] at hnd
    by_cases h : k' = k
    · subst h
      simp only [mapDelete, if_pos rfl]
      rw [mapGet_eq_none_iff]
      exact hnd.1
    · simp only [mapDelete, if_neg h, mapGet, h, if_neg h]
      exact ih hnd.2

theorem string_append_cancel_left (a b c : String) (h : a ++ b = a ++ c) : b = c := by
  have hd := congrArg String.data h
  rw [String.data_append, String.data_append] at hd
  have h2 := List.append_cancel_left hd
  cases b
  cases c
  simp only [String.data] at h2
  exact congrArg String.mk h2

/-- C10: the Match Cache key function is injective: distinct (strictness,
document identity) pairs always produce distinct cache-key strings, even
when the identity contains the separator or begins with one of the mode
prefixes, so cache entries never alias. -/
theorem getCacheKey_injective (id1 id2 : String) (s1 s2 : Bool)
    (h : getCacheKey id1 s1 = getCacheKey id2 s2) : s1 = s2 ∧ id1 = id2 := by
  cases s1 <;> cases s2 <;>
    simp only [getCacheKey, if_pos rfl, if_neg, Bool.false_eq_true, if_false, if_true] at h
  · exact ⟨rfl, string_append_cancel_left _ _ _ h⟩
  · exfalso
    have hd := congrArg String.data h
    simp only [String.data_append] at hd
    simp at hd
  · exfalso
    have hd := congrArg String.data h
    simp only [String.data_append] at hd
    simp at hd
  · exact ⟨rfl, string_append_cancel_left _ _ _ h⟩

/-- Witness for C10 at a concrete input whose identity itself begins with
the strict mode marker. -/
theorem getCacheKey_injective_witness :
    true = true ∧ ("strict:x") = ("strict:x") :=
  getCacheKey_injective ("strict:x") ("strict:x") true true rfl

theorem getCacheKey_true_ne_false (id1 id2 : String) :
    getCacheKey id1 true ≠ getCacheKey id2 false := by
  intro h
  have h2 := (getCacheKey_injective id1 id2 true false h).1
  simp at h2

/-- C5: a second `getMatchedPositionsFromDoc` call with the same
(strictness, document identity) key and no intervening eviction returns
the value cached by the first call, does not change the cache, and does
not invoke the Token Matcher, even when the supplied content differs from
the first call's content. -/
theorem getMatchedPositionsFromDoc_cached (matcher : TokenMatcher)
    (uno uno' : UnoGenerator) (cache : MatchCache) (code1 code2 id : String)
    (strict : Bool) :
    getMatchedPositionsFromDoc matcher uno'
        (getMatchedPositionsFromDoc matcher uno cache code1 id strict false).cache
        code2 id strict false =
      { result := (getMatchedPositionsFromDoc matcher uno cache code1 id strict false).result,
        cache := (getMatchedPositionsFromDoc matcher uno cache code1 id strict false).cache,
        invokedMatcher := false } := by
  cases h : mapGet cache (getCacheKey id strict) with
  | some v => simp [getMatchedPositionsFromDoc, h]
  | none => simp [getMatchedPositionsFromDoc, h, mapGet_set_self]

/-- C6: `clearDocumentCache(id)` evicts both strictness variants of the
document's entries, and the next `getMatchedPositionsFromDoc` call for
that document (either strictness) recomputes from the newly supplied
content by invoking the Token Matcher. -/
theorem clearDocumentCache_evicts_and_recomputes (matcher : TokenMatcher)
    (uno : UnoGenerator) (cache : MatchCache) (code id : String) (strict : Bool)
    (hnd : nodupKeys cache) :
    mapGet (clearDocumentCache cache id) (getCacheKey id false) = none ∧
    mapGet (clearDocumentCache cache id) (getCacheKey id true) = none ∧
    getMatchedPositionsFromDoc matcher uno (clearDocumentCache cache id)
        code id strict false =
      { result := matcher uno code id strict,
        cache := mapSet (clearDocumentCache cache id) (getCacheKey id strict)
          (matcher uno code id strict),
        invokedMatcher := true } := by
  have hfalse : mapGet (clearDocumentCache cache id) (getCacheKey id false) = none := by
    rw [clearDocumentCache,
      mapGet_delete_ne _ _ _ (getCacheKey_true_ne_false id id)]
    exact mapGet_delete_self _ hnd
  have htrue : mapGet (clearDocumentCache cache id) (getCacheKey id true) = none := by
    rw [clearDocumentCache]
    exact mapGet_delete_self _ (nodupKeys_delete _ hnd)
  refine ⟨hfalse, htrue, ?_⟩
  cases strict with
  | false => simp [getMatchedPositionsFromDoc, hfalse]
  | true => simp [getMatchedPositionsFromDoc, htrue]

/-- Witness for C6 at a concrete cache holding stale entries for the
document under both strictness variants. -/
theorem clearDocumentCache_evicts_and_recomputes_witness :
    mapGet (clearDocumentCache
        [(getCacheKey ("doc.html") false, [(1, 2, ("old"))]),
         (getCacheKey ("doc.html") true, [(3, 4, ("old"))])] ("doc.html"))
      (getCacheKey ("doc.html") false) = none ∧
    mapGet (clearDocumentCache
        [(getCacheKey ("doc.html") false, [(1, 2, ("old"))]),
         (getCacheKey ("doc.html") true, [(3, 4, ("old"))])] ("doc.html"))
      (getCacheKey ("doc.html") true) = none ∧
    getMatchedPositionsFromDoc (fun _ _ _ _ => [(0, 3, ("new"))]) ⟨none⟩
        (clearDocumentCache
          [(getCacheKey ("doc.html") false, [(1, 2, ("old"))]),
           (getCacheKey ("doc.html") true, [(3, 4, ("old"))])] ("doc.html"))
        ("div new") ("doc.html") false false =
      { result := [(0, 3, ("new"))],
        cache := mapSet (clearDocumentCache
            [(getCacheKey ("doc.html") false, [(1, 2, ("old"))]),
             (getCacheKey ("doc.html") true, [(3, 4, ("old"))])] ("doc.html"))
          (getCacheKey ("doc.html") false) [(0, 3, ("new"))],
        invokedMatcher := true } :=
  clearDocumentCache_evicts_and_recomputes (fun _ _ _ _ => [(0, 3, ("new"))]) ⟨none⟩
    [(getCacheKey ("doc.html") false, [(1, 2, ("old"))]),
     (getCacheKey ("doc.html") true, [(3, 4, ("old"))])]
    ("div new") ("doc.html") false (by decide)

/-- C7: a `loadContextInDirectory(dir, allowDefault=false)` call for a
never-seen directory where the config loader finds nothing records and
returns the definitive absent marker (no dedicated context is created),
and every subsequent call for that exact directory returns the recorded
marker without invoking the loader again. -/
theorem loadContextInDirectory_absent (loader : FsPath → LoadResult)
    (st : CMState) (dir : FsPath)
    (hfresh : mapGet st.contextsMap dir = none)
    (hnone : (loader dir).config = none) :
    (loadContextInDirectory loader st dir false).1 = none ∧
    (loadContextInDirectory loader st dir false).2.2 = [dir] ∧
    mapGet (loadContextInDirectory loader st dir false).2.1.contextsMap dir = some none ∧
    loadContextInDirectory loader (loadContextInDirectory loader st dir false).2.1
        dir false =
      (none, (loadContextInDirectory loader st dir false).2.1, []) := by
  have hstep : loadContextInDirectory loader st dir false =
      (none, { st with contextsMap := mapSet st.contextsMap dir none }, [dir]) := by
    simp [loadContextInDirectory, loadContext, hfresh, hnone]
  refine ⟨by rw [hstep], by rw [hstep], ?_, ?_⟩
  · rw [hstep]
    exact mapGet_set_self _ _ _
  · rw [hstep]
    simp [loadContextInDirectory, mapGet_set_self]

/-- Witness for C7: a fresh directory under the sample workspace whose
load finds no configuration. -/
theorem loadContextInDirectory_absent_witness :
    mapGet sampleState.contextsMap [("ws"), ("lib")] = none ∧
    (absentLoader [("ws"), ("lib")]).config = none ∧
    (loadContextInDirectory absentLoader sampleState [("ws"), ("lib")] false).1 = none ∧
    mapGet (loadContextInDirectory absentLoader sampleState
        [("ws"), ("lib")] false).2.1.contextsMap [("ws"), ("lib")] = some none :=
  ⟨by decide, by decide,
    (loadContextInDirectory_absent absentLoader sampleState [("ws"), ("lib")]
      (by decide) (by decide)).1,
    (loadContextInDirectory_absent absentLoader sampleState [("ws"), ("lib")]
      (by decide) (by decide)).2.2.1⟩

/-- C4: in the interleaved model, two calls to `loadContextInDirectory`
for the same never-before-seen directory with no completion in between
invoke the config loader exactly once: the first call registers the load
and invokes the loader, the second call attaches to the in-flight load
and changes nothing. -/
theorem loadContextInDirectory_coalesces (loader : FsPath → LoadResult)
    (s : AsyncState) (dir : FsPath) (a1 a2 : Bool)
    (hfresh : mapGet s.st.contextsMap dir = none)
    (hnotloading : dir ∉ s.st.loadingContexts) :
    astep loader (.call dir a2) (astep loader (.call dir a1) s) =
      astep loader (.call dir a1) s ∧
    (astep loader (.call dir a1) s).loaderCalls = s.loaderCalls ++ [dir] ∧
    (astep loader (.call dir a1) s).pending =
      s.pending ++ [{ dir := dir, allowDefault := a1 }] := by
  have h1 : astep loader (.call dir a1) s =
      { st := { s.st with loadingContexts := s.st.loadingContexts ++ [dir] },
        pending := s.pending ++ [{ dir := dir, allowDefault := a1 }],
        loaderCalls := s.loaderCalls ++ [dir] } := by
    simp [astep, acall, hfresh, hnotloading]
  refine ⟨?_, by rw [h1], by rw [h1]⟩
  rw [h1]
  simp [astep, acall, hfresh]

/-- Witness for C4: two concurrent calls for a fresh directory on the
sample state. -/
theorem loadContextInDirectory_coalesces_witness :
    astep absentLoader (.call [("ws"), ("lib")] true)
        (astep absentLoader (.call [("ws"), ("lib")] false)
          { st := sampleState, pending := [], loaderCalls := [] }) =
      astep absentLoader (.call [("ws"), ("lib")] false)
        { st := sampleState, pending := [], loaderCalls := [] } ∧
    (astep absentLoader (.call [("ws"), ("lib")] false)
        { st := sampleState, pending := [], loaderCalls := [] }).loaderCalls =
      [[("ws"), ("lib")]] :=
  ⟨(loadContextInDirectory_coalesces absentLoader
      { st := sampleState, pending := [], loaderCalls := [] }
      [("ws"), ("lib")] false true (by decide) (by decide)).1,
   (loadContextInDirectory_coalesces absentLoader
      { st := sampleState, pending := [], loaderCalls := [] }
      [("ws"), ("lib")] false true (by decide) (by decide)).2.1⟩

/-- C8: for a file whose path matches the exclusion pattern,
`resolveClosestContext` returns no context, performs no directory
listing and no loader invocation, and leaves the whole manager state
(all four caches included) unchanged. -/
theorem resolveClosestContext_excluded (fs : FsPath → Option (List String))
    (loader : FsPath → LoadResult) (st : CMState) (code : String)
    (file : FsPath) (h : excludeFileTest file = true) :
    resolveClosestContext fs loader st code file =
      { result := none, state := st, probed := [], loaderCalls := [] } := by
  simp [resolveClosestContext, h]

/-- Witness for C8: a file under node_modules in the sample workspace. -/
theorem resolveClosestContext_excluded_witness :
    excludeFileTest [("ws"), ("node_modules"), ("pkg"), ("index.ts")] = true ∧
    resolveClosestContext emptyFs absentLoader sampleState ("")
        [("ws"), ("node_modules"), ("pkg"), ("index.ts")] =
      { result := none, state := sampleState, probed := [], loaderCalls := [] } :=
  ⟨by decide,
   resolveClosestContext_excluded emptyFs absentLoader sampleState ("")
     [("ws"), ("node_modules"), ("pkg"), ("index.ts")] (by decide)⟩

/-- C9: `setAutocompleteMatchType` is a no-op when the mode is unchanged;
otherwise it stores the new mode and rebuilds only the autocomplete
engine of every loaded context in place: entry keys, context identity
fields (configDir, generator, configSources), the null markers and every
other component of the manager state are unchanged. -/
theorem setAutocompleteMatchType_frame (st : CMState) (matchType : String) :
    (st.autocompleteMatchType = matchType →
      setAutocompleteMatchType st matchType = st) ∧
    (st.autocompleteMatchType ≠ matchType →
      (setAutocompleteMatchType st matchType).autocompleteMatchType = matchType ∧
      (setAutocompleteMatchType st matchType).cwd = st.cwd ∧
      (setAutocompleteMatchType st matchType).fileContextCache = st.fileContextCache ∧
      (setAutocompleteMatchType st matchType).configExistsCache = st.configExistsCache ∧
      (setAutocompleteMatchType st matchType).loadingContexts = st.loadingContexts ∧
      (setAutocompleteMatchType st matchType).configSources = st.configSources ∧
      List.Forall₂ (fun (a b : FsPath × Option UnoContext) =>
          a.1 = b.1 ∧
          ((a.2 = none ∧ b.2 = none) ∨
            ∃ ca cb, a.2 = some ca ∧ b.2 = some cb ∧
              cb.configDir = ca.configDir ∧ cb.generator = ca.generator ∧
              cb.configSources = ca.configSources ∧
              cb.autocomplete = createAutocomplete ca.generator matchType))
        st.contextsMap (setAutocompleteMatchType st matchType).contextsMap) := by
  constructor
  · intro h
    simp [setAutocompleteMatchType, h]
  · intro h
    simp only [setAutocompleteMatchType, if_neg h]
    refine ⟨trivial, trivial, trivial, trivial, trivial, trivial, ?_⟩
    rw [List.forall₂_map_right_iff]
    rw [List.forall₂_same]
    intro pr _
    refine ⟨rfl, ?_⟩
    cases hpr : pr.2 with
    | none => exact Or.inl ⟨rfl, by simp [hpr]⟩
    | some ca =>
      exact Or.inr ⟨ca, { ca with autocomplete := createAutocomplete ca.generator matchType },
        rfl, by simp [hpr], rfl, rfl, rfl, rfl⟩

/-- Witness for C9: on the sample state, re-setting the current mode is a
no-op, and switching to fuzzy keeps the store keys and context fields
while replacing the autocomplete engine. -/
theorem setAutocompleteMatchType_frame_witness :
    setAutocompleteMatchType sampleState ("prefix") = sampleState ∧
    (setAutocompleteMatchType sampleState ("fuzzy")).autocompleteMatchType = ("fuzzy") ∧
    List.Forall₂ (fun (a b : FsPath × Option UnoContext) =>
        a.1 = b.1 ∧
        ((a.2 = none ∧ b.2 = none) ∨
          ∃ ca cb, a.2 = some ca ∧ b.2 = some cb ∧
            cb.configDir = ca.configDir ∧ cb.generator = ca.generator ∧
            cb.configSources = ca.configSources ∧
            cb.autocomplete = createAutocomplete ca.generator ("fuzzy")))
      sampleState.contextsMap
      (setAutocompleteMatchType sampleState ("fuzzy")).contextsMap :=
  ⟨(setAutocompleteMatchType_frame sampleState ("prefix")).1 rfl,
   ((setAutocompleteMatchType_frame sampleState ("fuzzy")).2 (by decide)).1,
   ((setAutocompleteMatchType_frame sampleState ("fuzzy")).2 (by decide)).2.2.2.2.2.2⟩

/-- C2 counterexample: the source keeps no generation counter, so a load
begun before `reload()` and completing after it IS installed into the
post-reload Context Store.  Concretely: a load of `/ws/pkg` starts, a
reload clears the store, and when the stale load completes its context
reappears in the fresh store, contradicting the claim that the stale
outcome is discarded. -/
theorem reload_stale_load_installed_counterexample :
    mapGet (arun pkgLoader
        [.call [("ws"), ("pkg")] false, .reloadStep, .complete [("ws"), ("pkg")]]
        { st := sampleState, pending := [], loaderCalls := [] }).st.contextsMap
      [("ws"), ("pkg")] =
    some (some
      { configDir := [("ws"), ("pkg")],
        generator := createGenerator (some 5),
        autocomplete := createAutocomplete (createGenerator (some 5)) ("prefix"),
        configSources := [[("ws"), ("pkg"), ("uno.config.ts")]] }) := by
  decide

theorem astep_reload_pending (loader : FsPath → LoadResult) (s : AsyncState) :
    (astep loader .reloadStep s).pending =
      s.pending ++ [{ dir := s.st.cwd, allowDefault := true }] := by
  simp [astep, acall, mapGet]

theorem astep_complete_installs (loader : FsPath → LoadResult)
    (s' : AsyncState) (dir : FsPath) (pl : PendingLoad)
    (hfind : (s'.pending.find? fun p => p.dir == dir) = some pl) :
    mapHas (astep loader (.complete dir) s').st.contextsMap pl.dir = true := by
  simp only [astep, hfind]
  unfold loadContext
  by_cases hc : ((loader pl.dir).config.isNone && !pl.allowDefault) = true
  · simp [hc, mapHas, mapGet_set_self]
  · simp [hc, mapHas, mapGet_set_self]

/-- C2 amended, main theorem: a context load begun before `reload()` and
completing after it is not discarded: because `loadContext` writes into
whatever `contextsMap` holds at completion time and `reload()` merely
clears the shared maps, the stale load installs its outcome into the
post-reload Context Store. -/
theorem reload_stale_load_installed (loader : FsPath → LoadResult)
    (s : AsyncState) (dir : FsPath) (pl : PendingLoad)
    (hpend : s.pending.find? (fun p => p.dir == dir) = some pl) :
    mapHas (astep loader (.complete dir)
        (astep loader .reloadStep s)).st.contextsMap dir = true := by
  have hdir : pl.dir = dir := by simpa using List.find?_some hpend
  have hfind : ((astep loader .reloadStep s).pending.find? fun p => p.dir == dir) =
      some pl := by
    rw [astep_reload_pending, List.find?_append, hpend]
    rfl
  have h2 := astep_complete_installs loader (astep loader .reloadStep s) dir pl hfind
  rwa [hdir] at h2

/-- Witness for C2 amended: the pending `/ws/pkg` load of the fixture
state, reloaded and then completed, leaves an entry for `/ws/pkg` in the
post-reload store. -/
theorem reload_stale_load_installed_witness :
    (samplePendingState.pending.find? fun p => p.dir == [("ws"), ("pkg")]) =
      some { dir := [("ws"), ("pkg")], allowDefault := false } ∧
    mapHas (astep pkgLoader (.complete [("ws"), ("pkg")])
        (astep pkgLoader .reloadStep samplePendingState)).st.contextsMap
      [("ws"), ("pkg")] = true :=
  ⟨by decide,
   reload_stale_load_installed pkgLoader samplePendingState [("ws"), ("pkg")]
     { dir := [("ws"), ("pkg")], allowDefault := false } (by decide)⟩

/-- C1 counterexample: a non-excluded file for which `resolveClosestContext`
returns no context.  The workspace-root context is loaded and governs the
file, but the upward probe finds `/ws/app` (it contains a
`vite.config.ts`), the more specific directory wins, its load finds no
unocss configuration there (`allowDefault=false`, absent marker), and the
function returns that absent outcome instead of falling back — so the
claim that every non-excluded path resolves to some context is false. -/
theorem resolveClosestContext_none_counterexample :
    excludeFileTest [("ws"), ("app"), ("main.ts")] = false ∧
    (resolveClosestContext viteFs absentLoader sampleState ("")
        [("ws"), ("app"), ("main.ts")]).result = none := by
  decide

theorem findConfigDirectory_contextsMap (fs : FsPath → Option (List String))
    (st : CMState) (d : FsPath) :
    (findConfigDirectory fs st d).2.1.contextsMap = st.contextsMap := by
  unfold findConfigDirectory
  cases h : mapGet st.configExistsCache d <;> simp [h]

/-- C1 amended: when neither the scan of already-loaded contexts nor the
upward probe yields a result, `resolveClosestContext` does return the
always-present workspace-root context (never "no context"); the fallback
is bypassed only when the probe discovers a more specific
configuration-file-bearing directory whose load then finds no
configuration, in which case "no context" is returned. -/
theorem resolveClosestContext_root_fallback (fs : FsPath → Option (List String))
    (loader : FsPath → LoadResult) (st : CMState) (code : String)
    (file : FsPath) (rootContext : UnoContext)
    (hexcl : excludeFileTest file = false)
    (hcache : mapGet st.fileContextCache file = none)
    (hscan : scanLoaded st file = none)
    (hprobe : (findConfigDirectory fs st (dirname file)).1 = none)
    (hroot : mapGet st.contextsMap st.cwd = some (some rootContext)) :
    (resolveClosestContext fs loader st code file).result = some rootContext := by
  have hroot1 : mapGet (findConfigDirectory fs st (dirname file)).2.1.contextsMap
      st.cwd = some (some rootContext) := by
    rw [findConfigDirectory_contextsMap]
    exact hroot
  simp only [resolveClosestContext, hexcl, Bool.false_eq_true, if_false,
    hcache, hscan, hprobe, loadContextInDirectory, hroot1]

/-- Witness for C1 amended: a file outside the workspace root matches no
loaded context and the probe walk (bounded by the root) finds nothing, so
the workspace-root context of the sample state is returned. -/
theorem resolveClosestContext_root_fallback_witness :
    excludeFileTest [("other"), ("a.ts")] = false ∧
    scanLoaded sampleState [("other"), ("a.ts")] = none ∧
    (findConfigDirectory emptyFs sampleState (dirname [("other"), ("a.ts")])).1 = none ∧
    (resolveClosestContext emptyFs absentLoader sampleState ("")
        [("other"), ("a.ts")]).result = some sampleRootContext :=
  ⟨by decide, by decide, by decide,
   resolveClosestContext_root_fallback emptyFs absentLoader sampleState ("")
     [("other"), ("a.ts")] sampleRootContext
     (by decide) (by decide) (by decide) (by decide) (by decide)⟩

theorem prefix_dropLast_of_ne {d l : FsPath} (h : d <+: l) (hne : d ≠ l) :
    d <+: l.dropLast := by
  obtain ⟨t, rfl⟩ := h
  cases t with
  | nil => exact absurd (List.append_nil d).symm hne
  | cons a t' =>
    rw [List.dropLast_append_of_ne_nil _ (List.cons_ne_nil a t')]
    exact List.prefix_append _ _

theorem dirnameChain_cons (p : FsPath) (hp : p ≠ []) :
    dirnameChain p = p :: dirnameChain (dirname p) := by
  unfold dirnameChain dirname
  conv_lhs => rw [← List.dropLast_append_getLast hp]
  rw [List.inits_append]
  simp only [List.inits, List.map, List.tail, List.reverse_append,
    List.reverse_cons, List.reverse_nil, List.nil_append, List.cons_append]
  rw [List.dropLast_append_getLast hp]

theorem mem_nodup_mapGet {κ ν : Type} [DecidableEq κ] {m : List (κ × ν)} {k : κ} {v : ν}
    (hnd : nodupKeys m) (hmem : (k, v) ∈ m) : mapGet m k = some v := by
  induction m with
  | nil => cases hmem
  | cons a t ih =>
    obtain ⟨k', v'⟩ := a
    simp only [nodupKeys, List.map_cons, List.nodup_cons] at hnd
    rcases List.mem_cons.mp hmem with heq | hmem'
    · rw [Prod.mk.injEq] at heq
      obtain ⟨rfl, rfl⟩ := heq
      simp [mapGet]
    · by_cases hk : k' = k
      · subst hk
        exact absurd (List.mem_map.mpr ⟨(k', v), hmem', rfl⟩) hnd.1
      · simp only [mapGet, if_neg hk]
        exact ih hnd.2 hmem'

theorem find?_sorted_byLenDesc (l : List (FsPath × Option UnoContext))
    (p : (FsPath × Option UnoContext) → Bool) (x : FsPath × Option UnoContext)
    (hsort : List.Sorted byLenDesc l) (hx : x ∈ l) (hpx : p x = true)
    (hmax : ∀ y ∈ l, p y = true → y.1.length < x.1.length ∨ y = x) :
    l.find? p = some x := by
  induction l with
  | nil => cases hx
  | cons a t ih =>
    rw [List.sorted_cons] at hsort
    by_cases hpa : p a = true
    · rcases hmax a (List.mem_cons_self a t) hpa with hlt | heq
      · rcases List.mem_cons.mp hx with rfl | hxt
        · exact absurd hlt (lt_irrefl _)
        · have hle : x.1.length ≤ a.1.length := hsort.1 x hxt
          exact absurd hlt (Nat.not_lt.mpr hle)
      · subst heq
        exact List.find?_cons_of_pos _ hpa
    · have hxt : x ∈ t := by
        rcases List.mem_cons.mp hx with rfl | hmem
        · exact absurd hpx hpa
        · exact hmem
      rw [List.find?_cons_of_neg _ (by simpa using hpa)]
      exact ih hsort.2 hxt fun y hy hpy => hmax y (List.mem_cons_of_mem _ hy) hpy

theorem governs_prefix {e file : FsPath} (h : (file == e || isSubdir e file) = true) :
    e <+: file := by
  rw [Bool.or_eq_true] at h
  rcases h with heq | hsub
  · rw [show file = e from by simpa using heq]
  · simp only [isSubdir, Bool.and_eq_true] at hsub
    exact List.isPrefixOf_iff_prefix.mp hsub.1

theorem isSubdir_of_proper_ancestor {p c : FsPath} (hpre : p <+: c) (hne : p ≠ c) :
    isSubdir p c = true := by
  have hlt : p.length < c.length :=
    Nat.lt_of_le_of_ne hpre.length_le fun heq => hne (hpre.eq_of_length heq)
  simp [isSubdir, List.isPrefixOf_iff_prefix, hpre, hlt]

theorem findConfigLoop_finds (fs : FsPath → Option (List String)) (cwd d : FsPath)
    (hd : d ≠ []) (hcwd : cwd <+: d) (hcfg : hasConfigFiles fs d = true) :
    ∀ n (dir : FsPath), dir.length ≤ n → d <+: dir →
      (∀ e : FsPath, d <+: e → e <+: dir → e ≠ d → hasConfigFiles fs e = false) →
      ∀ searched probed,
        (findConfigLoop fs cwd [] (dirnameChain dir) searched probed).1 = some d := by
  intro n
  induction n with
  | zero =>
    intro dir hlen hpre hbetween searched probed
    have hnil : dir = [] := List.eq_nil_of_length_eq_zero (Nat.le_zero.mp hlen)
    subst hnil
    exact absurd (List.prefix_nil.mp hpre) hd
  | succ n ih =>
    intro dir hlen hpre hbetween searched probed
    have hdirne : dir ≠ [] := by
      intro h
      subst h
      exact hd (List.prefix_nil.mp hpre)
    have hcwddir : cwd <+: dir := hcwd.trans hpre
    have hguard : dir ≠ [] ∧ (dir = cwd ∨ isSubdir cwd dir = true) := by
      refine ⟨hdirne, ?_⟩
      by_cases hcd : dir = cwd
      · exact Or.inl hcd
      · exact Or.inr (isSubdir_of_proper_ancestor hcwddir fun h => hcd h.symm)
    rw [dirnameChain_cons dir hdirne]
    simp only [findConfigLoop, if_pos hguard, mapGet]
    by_cases hdd : dir = d
    · subst hdd
      simp [hcfg]
    · have hnc : hasConfigFiles fs dir = false :=
        hbetween dir hpre (List.prefix_refl dir) hdd
      simp only [hnc, Bool.false_eq_true, if_false]
      have hlen' : (dirname dir).length ≤ n := by
        simp only [dirname, List.length_dropLast]
        omega
      have hpre' : d <+: dirname dir :=
        prefix_dropLast_of_ne hpre fun h => hdd h.symm
      exact ih (dirname dir) hlen' hpre'
        (fun e he1 he2 he3 =>
          hbetween e he1 (he2.trans (List.dropLast_prefix dir)) he3) _ _

theorem findConfigDirectory_finds (fs : FsPath → Option (List String))
    (st : CMState) (startDir d : FsPath)
    (hcache : st.configExistsCache = [])
    (hd : d ≠ []) (hcwd : st.cwd <+: d) (hcfg : hasConfigFiles fs d = true)
    (hpre : d <+: startDir)
    (hbetween : ∀ e : FsPath, d <+: e → e <+: startDir → e ≠ d →
      hasConfigFiles fs e = false) :
    (findConfigDirectory fs st startDir).1 = some d := by
  unfold findConfigDirectory
  rw [hcache]
  simp only [mapGet]
  exact findConfigLoop_finds fs st.cwd d hd hcwd hcfg startDir.length startDir
    (le_refl _) hpre hbetween [] []

theorem scanLoaded_finds (st : CMState) (file d : FsPath) (ctx : UnoContext)
    (hnodup : nodupKeys st.contextsMap)
    (hmem : mapGet st.contextsMap d = some (some ctx))
    (hgov : (file == d || isSubdir d file) = true)
    (hdpre : d <+: file)
    (hdeep : ∀ y ∈ st.contextsMap,
      (y.2.isSome && (file == y.1 || isSubdir y.1 file)) = true →
        y.1.length ≤ d.length) :
    scanLoaded st file = some ctx := by
  unfold scanLoaded
  rw [find?_sorted_byLenDesc _ _ (d, some ctx)
    (List.sorted_insertionSort byLenDesc st.contextsMap)
    ((List.mem_insertionSort byLenDesc).mpr (mapGet_eq_some_mem hmem))
    (by simp [hgov])
    ?_]
  · rfl
  · intro y hy hpy
    have hym : y ∈ st.contextsMap := (List.mem_insertionSort byLenDesc).mp hy
    have hple : y.1.length ≤ d.length := hdeep y hym hpy
    rcases Nat.lt_or_ge y.1.length d.length with hlt | hge
    · exact Or.inl hlt
    · have hlen : y.1.length = d.length := Nat.le_antisymm hple hge
      rw [Bool.and_eq_true] at hpy
      have hypre : y.1 <+: file := governs_prefix hpy.2
      have hyd : y.1 = d :=
        (List.prefix_of_prefix_length_le hypre hdpre hple).eq_of_length hlen
      obtain ⟨e, oc⟩ := y
      simp only at hyd hpy
      subst hyd
      obtain ⟨cy, rfl⟩ := Option.isSome_iff_exists.mp hpy.1
      have hcy2 := mem_nodup_mapGet hnodup hym
      rw [hmem] at hcy2
      have hcy : cy = ctx := by
        have h4 : ctx = cy := by simpa using hcy2
        exact h4.symm
      subst hcy
      exact Or.inr rfl

theorem scanLoaded_mem {st : CMState} {file : FsPath} {rc : UnoContext}
    (h : scanLoaded st file = some rc) :
    ∃ e, (e, some rc) ∈ st.contextsMap ∧ (file == e || isSubdir e file) = true := by
  unfold scanLoaded at h
  cases hf : (List.insertionSort byLenDesc st.contextsMap).find? fun e =>
      e.2.isSome && (file == e.1 || isSubdir e.1 file) with
  | none => rw [hf] at h; cases h
  | some y =>
    rw [hf] at h
    have hym : y ∈ st.contextsMap :=
      (List.mem_insertionSort byLenDesc).mp (List.mem_of_find?_eq_some hf)
    have hpy := List.find?_some hf
    rw [Bool.and_eq_true] at hpy
    have hsnd : y.2 = some rc := by simpa using h
    refine ⟨y.1, ?_, hpy.2⟩
    rw [← hsnd]
    exact hym

theorem loadContextInDirectory_fresh_some (loader : FsPath → LoadResult)
    (st1 : CMState) (d : FsPath)
    (hset : mapGet st1.contextsMap d = none)
    (hload : (loader d).config.isSome = true) :
    Option.map (fun c => c.configDir)
      (loadContextInDirectory loader st1 d false).1 = some d := by
  obtain ⟨c, hc⟩ := Option.isSome_iff_exists.mp hload
  simp [loadContextInDirectory, hset, loadContext, hc]

/-- C3: for a file under a directory `d` that is the nearest
configuration-bearing ancestor (every strictly deeper ancestor has no
configuration files, the loader finds configuration in `d`, and no
already-loaded context governs the file from deeper than `d`),
`resolveClosestContext` returns a context whose `configDir` is exactly
`d` — whether `d` is already loaded (the scan picks it, and the probe
cannot beat it) or freshly discovered (the probe finds it and its load
wins over any shallower loaded context by path length). -/
theorem resolveClosestContext_nearest (fs : FsPath → Option (List String))
    (loader : FsPath → LoadResult) (st : CMState) (code : String)
    (file d : FsPath)
    (hexcl : excludeFileTest file = false)
    (hfcache : mapGet st.fileContextCache file = none)
    (hpcache : st.configExistsCache = [])
    (hnodup : nodupKeys st.contextsMap)
    (hkeys : ctxKeysConsistent st.contextsMap = true)
    (hdeep : noDeeperLoaded st.contextsMap file d = true)
    (hnotnull : mapGet st.contextsMap d ≠ some none)
    (hd : d ≠ [])
    (hcwd : st.cwd <+: d)
    (hdirfile : d <+: dirname file)
    (hcfg : hasConfigFiles fs d = true)
    (hnear : noConfigBelow fs d (dirname file) = true)
    (hload : (loader d).config.isSome = true) :
    Option.map (fun c => c.configDir)
      (resolveClosestContext fs loader st code file).result = some d := by
  have hdfile : d <+: file := hdirfile.trans (List.dropLast_prefix file)
  have hfile_ne : file ≠ [] := by
    intro h
    subst h
    exact hd (List.prefix_nil.mp hdfile)
  have hlt : d.length < file.length := by
    have h1 : d.length ≤ (dirname file).length := hdirfile.length_le
    have h2 : (dirname file).length = file.length - 1 := by
      simp [dirname, List.length_dropLast]
    have h3 : 0 < file.length := List.length_pos.mpr hfile_ne
    omega
  have hfd : file ≠ d := by
    intro h
    rw [h] at hlt
    exact lt_irrefl _ hlt
  have hgov : (file == d || isSubdir d file) = true := by
    rw [Bool.or_eq_true]
    exact Or.inr (isSubdir_of_proper_ancestor hdfile fun h => hfd h.symm)
  have hbetween : ∀ e : FsPath, d <+: e → e <+: dirname file → e ≠ d →
      hasConfigFiles fs e = false := by
    intro e h1 h2 h3
    have hmem : e ∈ (dirname file).inits := (List.mem_inits _ _).mpr h2
    have hb := List.all_eq_true.mp hnear e hmem
    rw [Bool.or_eq_true, Bool.or_eq_true] at hb
    rcases hb with (hb1 | hb2) | hb3
    · rw [Bool.not_eq_true'] at hb1
      exact absurd (List.isPrefixOf_iff_prefix.mpr h1) (by simp [hb1])
    · exact absurd (by simpa using hb2 : e = d) h3
    · rwa [Bool.not_eq_true'] at hb3
  have hprobe : (findConfigDirectory fs st (dirname file)).1 = some d :=
    findConfigDirectory_finds fs st (dirname file) d hpcache hd hcwd hcfg
      hdirfile hbetween
  have hkeys' : ∀ e c, (e, some c) ∈ st.contextsMap → c.configDir = e := by
    intro e c hm
    have hb := List.all_eq_true.mp hkeys (e, some c) hm
    simpa using hb
  have hdeep' : ∀ y ∈ st.contextsMap,
      (y.2.isSome && (file == y.1 || isSubdir y.1 file)) = true →
        y.1.length ≤ d.length := by
    intro y hy hp
    have hb := List.all_eq_true.mp hdeep y hy
    rw [Bool.and_eq_true] at hp
    obtain ⟨c, hc⟩ := Option.isSome_iff_exists.mp hp.1
    rw [hc] at hb
    simp only at hb
    rw [Bool.or_eq_true] at hb
    rcases hb with hb1 | hb2
    · rw [Bool.not_eq_true'] at hb1
      rw [hb1] at hp
      exact absurd hp.2 (by simp)
    · simpa using hb2
  have hst1 : (findConfigDirectory fs st (dirname file)).2.1.contextsMap =
      st.contextsMap := findConfigDirectory_contextsMap fs st (dirname file)
  cases hset : mapGet st.contextsMap d with
  | some v =>
    cases v with
    | none => exact absurd hset hnotnull
    | some ctx =>
      have hscan : scanLoaded st file = some ctx :=
        scanLoaded_finds st file d ctx hnodup hset hgov hdfile hdeep'
      have hconf : ctx.configDir = d := hkeys' d ctx (mapGet_eq_some_mem hset)
      have hcond : (Option.all (fun rc => decide (rc.configDir.length < d.length))
          (some ctx)) = false := by
        simp [Option.all, hconf]
      simp only [resolveClosestContext, hexcl, Bool.false_eq_true, if_false,
        hfcache, hscan, hprobe, hcond, Option.map, hconf]
  | none =>
    have hset1 : mapGet (findConfigDirectory fs st (dirname file)).2.1.contextsMap
        d = none := by
      rw [hst1]
      exact hset
    cases hscan : scanLoaded st file with
    | none =>
      have hcond : (Option.all (fun rc => decide (rc.configDir.length < d.length))
          (none : Option UnoContext)) = true := rfl
      simp only [resolveClosestContext, hexcl, Bool.false_eq_true, if_false,
        hfcache, hscan, hprobe, hcond, if_true]
      exact loadContextInDirectory_fresh_some loader _ d hset1 hload
    | some rc =>
      obtain ⟨e, hmem, hgov'⟩ := scanLoaded_mem hscan
      have hconf : rc.configDir = e := hkeys' e rc hmem
      have hele : e.length ≤ d.length := hdeep' (e, some rc) hmem (by simp [hgov'])
      have hene : e ≠ d := by
        intro h
        subst h
        have hm2 := mem_nodup_mapGet hnodup hmem
        rw [hset] at hm2
        cases hm2
      have hepre : e <+: file := governs_prefix hgov'
      have helt : e.length < d.length :=
        Nat.lt_of_le_of_ne hele fun hl =>
          hene ((List.prefix_of_prefix_length_le hepre hdfile hele).eq_of_length hl)
      have hcond : (Option.all (fun rc => decide (rc.configDir.length < d.length))
          (some rc)) = true := by
        simp [Option.all, hconf, helt]
      simp only [resolveClosestContext, hexcl, Bool.false_eq_true, if_false,
        hfcache, hscan, hprobe, hcond, if_true]
      exact loadContextInDirectory_fresh_some loader _ d hset1 hload

/-- Witness for C3: under the sample state (root context loaded at `/ws`)
a file `/ws/pkg/src/a.ts` resolves to a context for `/ws/pkg`, the
nearest ancestor holding a `uno.config.ts`, although the shallower root
context also governs the file. -/
theorem resolveClosestContext_nearest_witness :
    hasConfigFiles nestedFs [("ws"), ("pkg")] = true ∧
    Option.map (fun c => c.configDir)
      (resolveClosestContext nestedFs pkgLoader sampleState ("")
        [("ws"), ("pkg"), ("src"), ("a.ts")]).result = some [("ws"), ("pkg")] :=
  ⟨by decide,
   resolveClosestContext_nearest nestedFs pkgLoader sampleState ("")
     [("ws"), ("pkg"), ("src"), ("a.ts")] [("ws"), ("pkg")]
     (by decide) (by decide) rfl (by decide) (by decide) (by decide)
     (by decide) (by decide) (by decide) (by decide) (by decide) (by decide)
     (by decide)⟩
